import Mathlib

/-!
# STP Simulator: topology container queries and removal

A shallow embedding of the `project_i` region of `simulator/simulator.cpp`
(`GetWireConnectedToPort`, `FindConnectedPort`, `remove_wire`, `remove_bridge`)
and of the STP handle of `Simulator/Bridge.h` (`_stpBridge`, `IsStpEnabled`).

Memory model.  A heap object lives at an address (`Addr`).  A raw pointer that the
code only compares (`Port*`, `STP_BRIDGE*`) is `Option Addr`, with `none` for
`nullptr`.  An element of a `std::vector<std::unique_ptr<T>>` is an `Owned T`: the
address the `unique_ptr` holds together with the object stored there; it is never
null, since the loops dereference every element.  A `T*` or `std::unique_ptr<T>`
value that may be null is `Option (Owned T)`; two such pointers are compared by
address only (`ptrEq`).
-/

namespace MstpSim

/-! ## Pointers and owned objects -/

/-- Address of a heap object. -/
abbrev Addr := Nat

/-- A `Port*`: the modelled functions compare ports by address and never
dereference them; `none` is `nullptr`. -/
abbrev PortPtr := Option Addr

/-- The null `Port*`. -/
def nullPort : PortPtr := none

/-- An object held by a non-null `std::unique_ptr<T>`: its address and its contents. -/
structure Owned (α : Type) where
  addr : Addr
  obj : α
deriving DecidableEq, Repr

/-- A possibly-null `T*`, or a possibly-null `std::unique_ptr<T>`; `none` is `nullptr`. -/
abbrev Ptr (α : Type) := Option (Owned α)

/-- The call `unique_ptr::get()` on an element of an owning vector. -/
def Owned.get {α : Type} (u : Owned α) : Ptr α := some u

/-- Pointer comparison `a == b`: equality of addresses. -/
def ptrEq {α : Type} (a b : Ptr α) : Bool :=
  a.map Owned.addr == b.map Owned.addr

/-! ## Wires (`Wire.h` is not part of the sources at hand) -/

/-- Modelled from the spec: the type `WireEnd` of `Wire.h`, "Two ends, each a tagged
value: either connected to Port P or free point at location L".  The alternative
`connected` is `ConnectedWireEnd` (a `Port*`), `loose` is the free point, whose
coordinates the queries never inspect. -/
inductive WireEnd where
  | loose (x y : Int)
  | connected (port : PortPtr)
deriving DecidableEq, Repr

/-- Modelled from the spec: the class `Wire` of `Wire.h`, a link with two ends. -/
structure Wire where
  p0 : WireEnd
  p1 : WireEnd
deriving DecidableEq, Repr

/-- Modelled from the spec: the accessor `Wire::GetP0` of `Wire.h`, the first end. -/
def Wire.GetP0 (w : Wire) : WireEnd := w.p0

/-- Modelled from the spec: the accessor `Wire::GetP1` of `Wire.h`, the second end. -/
def Wire.GetP1 (w : Wire) : WireEnd := w.p1

/-- Modelled from the spec: the accessor `Wire::GetPoints` of `Wire.h` followed by
`[i]`, the two ends as an array: index 0 is the first end, index 1 the second.  The
code reads the indices 0 and 1 only. -/
def Wire.GetPoints (w : Wire) (i : Nat) : WireEnd :=
  if i = 0 then w.p0 else w.p1

/-- The test `holds_alternative<ConnectedWireEnd>(e)`. -/
def holds_ConnectedWireEnd : WireEnd → Bool
  | .connected _ => true
  | .loose _ _ => false

/-- The guard `holds_alternative<ConnectedWireEnd>(e) && (get<ConnectedWireEnd>(e) == port)`.
The `&&` short-circuits, so `get` runs on the connected alternative only and never throws. -/
def connectedTo (e : WireEnd) (port : PortPtr) : Bool :=
  match e with
  | .connected p => p == port
  | .loose _ _ => false

/-! ## Bridges (`Bridge.h`) -/

/-- The class `Port`, without its presentation attributes `_side` and `_offset`. -/
structure Port where
  _bridge : Option Addr
  _portIndex : Nat
deriving DecidableEq, Repr

/-- The struct `BridgeLogLine`. -/
structure BridgeLogLine where
  text : String
  portIndex : Int
  treeIndex : Int
deriving DecidableEq, Repr

/-- The data members of class `Bridge` with their default member initialisers.  The
geometry floats, the event manager, the mutex and the thread id are left out.
`_stpBridge` is the `STP_BRIDGE*` handle: "when nullptr, STP is disabled in the bridge". -/
structure Bridge where
  _refCount : Nat := 1
  _ports : List (Owned Port)
  _macAddress : List Nat
  _powered : Bool := true
  _stpBridge : Option Addr := none
  _logLines : List BridgeLogLine
  _currentLogLine : BridgeLogLine
deriving DecidableEq, Repr

/-- The method `bool IsStpEnabled() const { return _stpBridge != nullptr; }`. -/
def Bridge.IsStpEnabled (b : Bridge) : Bool := b._stpBridge != none

/-! ## The topology container (`project_i`) -/

/-- The owned collections behind `project_i::bridges()` and `project_i::wires()`. -/
structure Project where
  bridges : List (Owned Bridge)
  wires : List (Owned Wire)
deriving DecidableEq, Repr

/-- The range-for loop of `GetWireConnectedToPort` over the remaining wires; the
fall-through `return { }` is the pair of a null `Wire*` and index 0. -/
def GetWireConnectedToPort.loop (port : PortPtr) : List (Owned Wire) → Ptr Wire × Nat
  | [] => (none, 0)
  | w :: rest =>
    if connectedTo w.obj.GetP0 port then (w.get, 0)
    else if connectedTo w.obj.GetP1 port then (w.get, 1)
    else GetWireConnectedToPort.loop port rest

/-- The method `project_i::GetWireConnectedToPort`. -/
def GetWireConnectedToPort (this : Project) (port : PortPtr) : Ptr Wire × Nat :=
  GetWireConnectedToPort.loop port this.wires

/-- The body of the inner loop of `FindConnectedPort` at end index `i`: `some r` when
the body returns `r`, `none` when the loop goes on. -/
def FindConnectedPort.body (w : Wire) (txPort : PortPtr) (i : Nat) : Option PortPtr :=
  let thisEnd := w.GetPoints i
  if connectedTo thisEnd txPort then
    let otherEnd := w.GetPoints (1 - i)
    match otherEnd with
    | .connected p => some p
    | .loose _ _ => some nullPort
  else none

/-- The inner loop `for (size_t i = 0; i < 2; i++)` of `FindConnectedPort`. -/
def FindConnectedPort.ends (w : Wire) (txPort : PortPtr) : Option PortPtr :=
  (List.range 2).findSome? (FindConnectedPort.body w txPort)

/-- The outer range-for loop of `FindConnectedPort` over the remaining wires. -/
def FindConnectedPort.loop (txPort : PortPtr) : List (Owned Wire) → PortPtr
  | [] => nullPort
  | w :: rest =>
    match FindConnectedPort.ends w.obj txPort with
    | some r => r
    | none => FindConnectedPort.loop txPort rest

/-- The method `project_i::FindConnectedPort`. -/
def FindConnectedPort (this : Project) (txPort : PortPtr) : PortPtr :=
  FindConnectedPort.loop txPort this.wires

/-- The search loop shared by `remove_wire` and `remove_bridge`:
`for (i = start; i < v.size(); i++) if (v[i].get() == p) return i`, run over the
elements from position `start` on; `none` when the loop falls through. -/
def indexLoop {α : Type} (p : Ptr α) : List (Owned α) → Nat → Option Nat
  | [], _ => none
  | x :: rest, i => if ptrEq x.get p then some i else indexLoop p rest (i + 1)

/-- How a call ends when it does not return: `assertFailed` is a failed `assert`,
`removalRejected` a removal that the container refuses (the index overloads, which are
outside the sources at hand, may refuse). -/
inductive Abort where
  | assertFailed
  | removalRejected
deriving DecidableEq, Repr

/-- The statement pair `assert(false); return nullptr;`.  With assertions compiled in
(`ndebug = false`) the assertion fails; with `NDEBUG` defined the assertion is an empty
statement and the null pointer is returned, the container untouched.  The program is
built both ways (`WinMain` has an `#ifdef _DEBUG` branch). -/
def assertFalseReturnNull {α : Type} (ndebug : Bool) (this : Project) :
    Except Abort (Ptr α × Project) :=
  if ndebug then .ok (none, this) else .error Abort.assertFailed

/-- The method `project_i::remove_wire (Wire* w)`.  The index overload it calls,
`remove_wire (size_t)`, is virtual and implemented outside the sources at hand; it is
the parameter `removeAt`, which either fails or returns the detached wire and the
container afterwards; `return this->remove_wire(wi)` passes its outcome on. -/
def remove_wire (ndebug : Bool)
    (removeAt : Project → Nat → Except Abort (Ptr Wire × Project))
    (this : Project) (w : Ptr Wire) : Except Abort (Ptr Wire × Project) :=
  match indexLoop w this.wires 0 with
  | some wi => removeAt this wi
  | none => assertFalseReturnNull ndebug this

/-- The method `project_i::remove_bridge (Bridge* b)`, with the index overload
`remove_bridge (size_t)` as the parameter `removeAt`, which either fails or returns the
detached bridge and the container afterwards. -/
def remove_bridge (ndebug : Bool)
    (removeAt : Project → Nat → Except Abort (Ptr Bridge × Project))
    (this : Project) (b : Ptr Bridge) : Except Abort (Ptr Bridge × Project) :=
  match indexLoop b this.bridges 0 with
  | some bi => removeAt this bi
  | none => assertFalseReturnNull ndebug this

/-- Modelled from the spec: the index overload `remove_wire (size_t index)`, which is
not in the sources at hand: it "removes the element at the index from the wire
collection" and "returns ownership of the removed entity to the caller". -/
def remove_wire_at (this : Project) (index : Nat) : Except Abort (Ptr Wire × Project) :=
  .ok (this.wires[index]?, { this with wires := this.wires.eraseIdx index })

/-- The connected-port query as the specification words it: "locates the wire attached
to tx_port, then inspects the opposite end: returns the port there, or none if that end
is dangling or no wire exists".  The wire and the end index come from
`GetWireConnectedToPort`; the opposite end of end `i` is end `1 - i`. -/
def FindConnectedPort_spec (this : Project) (txPort : PortPtr) : PortPtr :=
  match GetWireConnectedToPort this txPort with
  | (none, _) => nullPort
  | (some w, i) =>
    match w.obj.GetPoints (1 - i) with
    | .connected p => p
    | .loose _ _ => nullPort

/-! ## Predicates used in the statements -/

/-- A wire has an end connected to the port. -/
def touches (w : Owned Wire) (port : PortPtr) : Bool :=
  connectedTo w.obj.GetP0 port || connectedTo w.obj.GetP1 port

/-- The lowest end index of the wire that is connected to the port (0 before 1). -/
def lowestEnd (w : Owned Wire) (port : PortPtr) : Nat :=
  if connectedTo w.obj.GetP0 port then 0 else 1

/-- Unique ownership: no two elements of an owning vector hold the same address. -/
def UniquelyOwned {α : Type} (v : List (Owned α)) : Prop :=
  (v.map Owned.addr).Nodup

instance UniquelyOwned.decidable {α : Type} (v : List (Owned α)) :
    Decidable (UniquelyOwned v) := by
  unfold UniquelyOwned; infer_instance

/-- The entity a pointer refers to is a member of the owning vector (by address). -/
def IsMember {α : Type} (p : Ptr α) (v : List (Owned α)) : Prop :=
  ∃ x ∈ v, ptrEq x.get p = true

instance IsMember.decidable {α : Type} (p : Ptr α) (v : List (Owned α)) :
    Decidable (IsMember p v) := by
  unfold IsMember; infer_instance

/-! ## A small network used to instantiate the statements -/

/-- A bridge at address 100 with STP enabled (handle at address 900). -/
def exBridgeA : Owned Bridge :=
  ⟨100, { _ports := [⟨10, ⟨some 100, 0⟩⟩, ⟨30, ⟨some 100, 1⟩⟩, ⟨40, ⟨some 100, 2⟩⟩],
          _macAddress := [0, 1, 2, 3, 4, 5], _stpBridge := some 900,
          _logLines := [], _currentLogLine := ⟨"", 0, 0⟩ }⟩

/-- A bridge at address 200 as its default member initialisers leave it. -/
def exBridgeB : Owned Bridge :=
  ⟨200, { _ports := [⟨20, ⟨some 200, 0⟩⟩], _macAddress := [0, 1, 2, 3, 4, 6],
          _logLines := [], _currentLogLine := ⟨"", 0, 0⟩ }⟩

/-- A wire from port 10 to port 20. -/
def exWireAB : Owned Wire := ⟨1, ⟨.connected (some 10), .connected (some 20)⟩⟩

/-- A wire from port 30 to a free point. -/
def exWireDangling : Owned Wire := ⟨2, ⟨.connected (some 30), .loose 5 7⟩⟩

/-- A wire between two free points. -/
def exWireFree : Owned Wire := ⟨3, ⟨.loose 0 0, .loose 1 1⟩⟩

/-- A bridge at address 300 whose only port, 50, has no wire. -/
def exBridgeC : Owned Bridge :=
  ⟨300, { _ports := [⟨50, ⟨some 300, 0⟩⟩], _macAddress := [0, 1, 2, 3, 4, 7],
          _logLines := [], _currentLogLine := ⟨"", 0, 0⟩ }⟩

/-- Three bridges and three wires; ports 40 and 50 have no wire. -/
def exProject : Project :=
  ⟨[exBridgeA, exBridgeB, exBridgeC], [exWireDangling, exWireAB, exWireFree]⟩

/-- A wire at address 99 that the container `exProject` does not own. -/
def exStrayWire : Owned Wire := ⟨99, ⟨.loose 0 0, .loose 0 0⟩⟩

/-- A bridge at address 999 that the container `exProject` does not own. -/
def exStrayBridge : Owned Bridge :=
  ⟨999, { _ports := [], _macAddress := [0, 1, 2, 3, 4, 8],
          _logLines := [], _currentLogLine := ⟨"", 0, 0⟩ }⟩

/-- An index overload that detaches nothing and returns a null pointer; the removals
never reach it for an entity that is not a member. -/
def exNoRemoval {α : Type} (this : Project) (_index : Nat) :
    Except Abort (Ptr α × Project) :=
  .ok (none, this)

/-! ## The two scans -/

theorem ends_unfold (w : Wire) (tx : PortPtr) :
    FindConnectedPort.ends w tx =
      (FindConnectedPort.body w tx 0).or (FindConnectedPort.body w tx 1) := by
  have h : List.range 2 = [0, 1] := by decide
  unfold FindConnectedPort.ends
  rw [h]
  cases h0 : FindConnectedPort.body w tx 0 <;>
    cases h1 : FindConnectedPort.body w tx 1 <;>
    simp [List.findSome?, h0, h1]

theorem ends_of_not_touches (w : Owned Wire) (tx : PortPtr) (h : touches w tx = false) :
    FindConnectedPort.ends w.obj tx = none := by
  simp only [touches, Bool.or_eq_false_iff, Wire.GetP0, Wire.GetP1] at h
  rw [ends_unfold]
  simp [FindConnectedPort.body, Wire.GetPoints, h.1, h.2]

theorem find_loop_skip (tx : PortPtr) (pre rest : List (Owned Wire))
    (h : ∀ v ∈ pre, touches v tx = false) :
    FindConnectedPort.loop tx (pre ++ rest) = FindConnectedPort.loop tx rest := by
  induction pre with
  | nil => rfl
  | cons v vs ih =>
    have hv := ends_of_not_touches v tx (h v (List.mem_cons_self _ _))
    simp only [List.cons_append, FindConnectedPort.loop, hv]
    exact ih (fun u hu => h u (List.mem_cons_of_mem _ hu))

theorem find_loop_none (tx : PortPtr) (ws : List (Owned Wire))
    (h : ∀ v ∈ ws, touches v tx = false) :
    FindConnectedPort.loop tx ws = nullPort := by
  have := find_loop_skip tx ws [] h
  simpa [FindConnectedPort.loop] using this

theorem wire_loop_skip (port : PortPtr) (pre rest : List (Owned Wire))
    (h : ∀ v ∈ pre, touches v port = false) :
    GetWireConnectedToPort.loop port (pre ++ rest) = GetWireConnectedToPort.loop port rest := by
  induction pre with
  | nil => rfl
  | cons v vs ih =>
    have hv := h v (List.mem_cons_self _ _)
    simp only [touches, Bool.or_eq_false_iff] at hv
    simp only [List.cons_append, GetWireConnectedToPort.loop, hv.1, hv.2]
    exact ih (fun u hu => h u (List.mem_cons_of_mem _ hu))

theorem wire_loop_hit (port : PortPtr) (w : Owned Wire) (post : List (Owned Wire))
    (h : touches w port = true) :
    GetWireConnectedToPort.loop port (w :: post) = (w.get, lowestEnd w port) := by
  simp only [touches, Bool.or_eq_true] at h
  by_cases h0 : connectedTo w.obj.GetP0 port = true
  · simp [GetWireConnectedToPort.loop, lowestEnd, h0]
  · have h1 : connectedTo w.obj.GetP1 port = true := by tauto
    simp [GetWireConnectedToPort.loop, lowestEnd, h0, h1]

theorem wire_loop_none_iff (port : PortPtr) (ws : List (Owned Wire)) :
    GetWireConnectedToPort.loop port ws = (none, 0) ↔ ∀ w ∈ ws, touches w port = false := by
  induction ws with
  | nil => simp [GetWireConnectedToPort.loop]
  | cons v vs ih =>
    by_cases hv : touches v port = true
    · rw [wire_loop_hit port v vs hv]
      constructor
      · intro h; simp [Owned.get] at h
      · intro h; have := h v (List.mem_cons_self _ _); simp [hv] at this
    · have hv2 : touches v port = false := by simpa using hv
      have := wire_loop_skip port [v] vs (by simpa using hv2)
      simp only [List.singleton_append] at this
      rw [this, ih]
      simp [hv2]

theorem find_loop_hit_both (tx P1 P2 : PortPtr) (w : Owned Wire) (post : List (Owned Wire))
    (h0 : w.obj.GetP0 = .connected P1) (h1 : w.obj.GetP1 = .connected P2) :
    (P1 = tx → FindConnectedPort.loop tx (w :: post) = P2) ∧
    (P2 = tx → FindConnectedPort.loop tx (w :: post) = P1) := by
  simp only [Wire.GetP0, Wire.GetP1] at h0 h1
  constructor
  · intro h
    simp [FindConnectedPort.loop, ends_unfold, FindConnectedPort.body, Wire.GetPoints,
      connectedTo, h0, h1, h]
  · intro h
    by_cases h2 : P1 = tx
    · simp [FindConnectedPort.loop, ends_unfold, FindConnectedPort.body, Wire.GetPoints,
        connectedTo, h0, h1, h, h2]
    · simp [FindConnectedPort.loop, ends_unfold, FindConnectedPort.body, Wire.GetPoints,
        connectedTo, h0, h1, h, h2]

theorem find_loop_hit (tx : PortPtr) (w : Owned Wire) (post : List (Owned Wire))
    (h : touches w tx = true) :
    FindConnectedPort.loop tx (w :: post) =
      (match w.obj.GetPoints (1 - lowestEnd w tx) with
       | .connected p => p
       | .loose _ _ => nullPort) := by
  rcases w with ⟨a, ⟨e0, e1⟩⟩
  simp only [touches, Wire.GetP0, Wire.GetP1, Bool.or_eq_true] at h
  simp only [FindConnectedPort.loop, ends_unfold, FindConnectedPort.body, Wire.GetPoints,
    lowestEnd, Wire.GetP0]
  by_cases h0 : connectedTo e0 tx = true
  · cases e1 <;> simp [h0]
  · have h1 : connectedTo e1 tx = true := by tauto
    cases e0 <;> simp [h0, h1]

theorem find_loop_eq_spec (tx : PortPtr) (ws : List (Owned Wire)) :
    FindConnectedPort.loop tx ws =
      (match GetWireConnectedToPort.loop tx ws with
       | (none, _) => nullPort
       | (some w, i) =>
         match w.obj.GetPoints (1 - i) with
         | .connected p => p
         | .loose _ _ => nullPort) := by
  induction ws with
  | nil => simp [FindConnectedPort.loop, GetWireConnectedToPort.loop]
  | cons v vs ih =>
    by_cases hv : touches v tx = true
    · rw [find_loop_hit tx v vs hv, wire_loop_hit tx v vs hv]
      simp [Owned.get]
    · have hv2 : ∀ u ∈ [v], touches u tx = false := by simpa using hv
      have e1 := find_loop_skip tx [v] vs hv2
      have e2 := wire_loop_skip tx [v] vs hv2
      simp only [List.singleton_append] at e1 e2
      rw [e1, e2, ih]

/-! ## Positions in an owning vector -/

theorem split_at {α : Type} (l : List α) (i : Nat) (w : α) (h : l[i]? = some w) :
    l = l.take i ++ w :: l.drop (i + 1) ∧ l.eraseIdx i = l.take i ++ l.drop (i + 1) ∧
      (l.take i).length = i := by
  obtain ⟨hi, hw⟩ := List.getElem?_eq_some.mp h
  refine ⟨?_, List.eraseIdx_eq_take_drop_succ l i, ?_⟩
  · have h1 := List.drop_eq_getElem_cons hi
    rw [hw] at h1
    rw [← h1, List.take_append_drop]
  · simp [List.length_take]; omega

theorem mem_take_index {α : Type} (l : List α) (i : Nat) (x : α) (h : x ∈ l.take i) :
    ∃ j, j < i ∧ l[j]? = some x := by
  obtain ⟨j, hj⟩ := List.mem_iff_getElem?.mp h
  have hlt : j < (l.take i).length := (List.getElem?_eq_some.mp hj).1
  have hji : j < i := by
    have := List.length_take_le i l
    omega
  refine ⟨j, hji, ?_⟩
  rw [List.getElem?_take_of_lt hji] at hj
  exact hj

theorem mem_drop_succ_index {α : Type} (l : List α) (i : Nat) (x : α)
    (h : x ∈ l.drop (i + 1)) : ∃ j, i < j ∧ l[j]? = some x := by
  obtain ⟨j, hj⟩ := List.mem_iff_getElem?.mp h
  rw [List.getElem?_drop] at hj
  exact ⟨i + 1 + j, by omega, hj⟩

theorem mem_others_index {α : Type} (l : List α) (i : Nat) (x : α)
    (h : x ∈ l.take i ++ l.drop (i + 1)) : ∃ j, j ≠ i ∧ l[j]? = some x := by
  rcases List.mem_append.mp h with h | h
  · obtain ⟨j, hj, e⟩ := mem_take_index l i x h
    exact ⟨j, by omega, e⟩
  · obtain ⟨j, hj, e⟩ := mem_drop_succ_index l i x h
    exact ⟨j, by omega, e⟩

theorem ptrEq_get_iff {α : Type} (x y : Owned α) :
    ptrEq x.get y.get = true ↔ x.addr = y.addr := by
  simp [ptrEq, Owned.get]

theorem ptrEq_get_null {α : Type} (x : Owned α) : ptrEq x.get none = false := by
  simp [ptrEq, Owned.get]

theorem indexLoop_none_iff {α : Type} (p : Ptr α) (v : List (Owned α)) (k : Nat) :
    indexLoop p v k = none ↔ ∀ x ∈ v, ptrEq x.get p = false := by
  induction v generalizing k with
  | nil => simp [indexLoop]
  | cons x rest ih =>
    by_cases hx : ptrEq x.get p = true
    · simp [indexLoop, hx]
    · simp [indexLoop, hx, ih]

theorem indexLoop_skip {α : Type} (p : Ptr α) (pre rest : List (Owned α)) (k : Nat)
    (h : ∀ x ∈ pre, ptrEq x.get p = false) :
    indexLoop p (pre ++ rest) k = indexLoop p rest (k + pre.length) := by
  induction pre generalizing k with
  | nil => rfl
  | cons x xs ih =>
    have hx := h x (List.mem_cons_self _ _)
    have e := ih (k + 1) (fun u hu => h u (List.mem_cons_of_mem _ hu))
    have hk : k + 1 + xs.length = k + (x :: xs).length := by
      simp only [List.length_cons]; omega
    rw [hk] at e
    rw [← e]
    simp [indexLoop, hx]

theorem addr_not_mem_others {α : Type} (v : List (Owned α)) (i : Nat) (w : Owned α)
    (hi : v[i]? = some w) (hu : UniquelyOwned v) :
    ∀ x ∈ v.take i ++ v.drop (i + 1), ptrEq x.get w.get = false := by
  obtain ⟨hsplit, _, _⟩ := split_at v i w hi
  unfold UniquelyOwned at hu
  rw [hsplit, List.map_append, List.map_cons, List.nodup_middle, List.nodup_cons] at hu
  intro x hx
  have hne : x.addr ≠ w.addr := by
    intro e
    apply hu.1
    rw [← List.map_append, ← e]
    exact List.mem_map_of_mem _ hx
  have := ptrEq_get_iff x w
  cases hp : ptrEq x.get w.get
  · rfl
  · exact absurd (this.mp hp) hne

theorem indexLoop_member {α : Type} (v : List (Owned α)) (i : Nat) (w : Owned α)
    (hi : v[i]? = some w) (hu : UniquelyOwned v) : indexLoop w.get v 0 = some i := by
  obtain ⟨hsplit, _, hlen⟩ := split_at v i w hi
  have hothers := addr_not_mem_others v i w hi hu
  have hpre : ∀ x ∈ v.take i, ptrEq x.get w.get = false :=
    fun x hx => hothers x (List.mem_append_left _ hx)
  rw [hsplit, indexLoop_skip w.get _ _ 0 hpre, hlen]
  simp [indexLoop, ptrEq_get_iff]

theorem others_of_index (this : Project) (i : Nat) (P : PortPtr)
    (hother : ∀ (j : Nat) (v : Owned Wire), j ≠ i → this.wires[j]? = some v → touches v P = false) :
    ∀ v ∈ this.wires.take i ++ this.wires.drop (i + 1), touches v P = false := by
  intro v hv
  obtain ⟨j, hj, e⟩ := mem_others_index this.wires i v hv
  exact hother j v hj e

theorem find_at_index (this : Project) (i : Nat) (w : Owned Wire) (P1 P2 tx : PortPtr)
    (hw : this.wires[i]? = some w)
    (h0 : w.obj.GetP0 = .connected P1) (h1 : w.obj.GetP1 = .connected P2)
    (hother : ∀ (j : Nat) (v : Owned Wire), j ≠ i → this.wires[j]? = some v → touches v tx = false) :
    (P1 = tx → FindConnectedPort this tx = P2) ∧ (P2 = tx → FindConnectedPort this tx = P1) := by
  obtain ⟨hsplit, _, _⟩ := split_at this.wires i w hw
  have hpre : ∀ v ∈ this.wires.take i, touches v tx = false :=
    fun v hv => others_of_index this i tx hother v (List.mem_append_left _ hv)
  unfold FindConnectedPort
  rw [hsplit, find_loop_skip tx _ _ hpre]
  exact find_loop_hit_both tx P1 P2 w _ h0 h1

/-! ## The claims -/

/-- C1: for a wire `w` at position `i` of the wire collection whose ends are connected to
the ports `P1` and `P2`, when no wire at another position has `P1` or `P2` as an endpoint,
`FindConnectedPort(P1)` returns `P2` and `FindConnectedPort(P2)` returns `P1`. -/
theorem C1_connected_ports_of_wire (this : Project) (i : Nat) (w : Owned Wire)
    (P1 P2 : PortPtr) (hw : this.wires[i]? = some w)
    (h0 : w.obj.GetP0 = .connected P1) (h1 : w.obj.GetP1 = .connected P2)
    (hother : ∀ (j : Nat) (v : Owned Wire), j ≠ i → this.wires[j]? = some v →
      touches v P1 = false ∧ touches v P2 = false) :
    FindConnectedPort this P1 = P2 ∧ FindConnectedPort this P2 = P1 :=
  ⟨(find_at_index this i w P1 P2 P1 hw h0 h1 (fun j v hj e => (hother j v hj e).1)).1 rfl,
   (find_at_index this i w P1 P2 P2 hw h0 h1 (fun j v hj e => (hother j v hj e).2)).2 rfl⟩

theorem exProject_others :
    ∀ (j : Nat) (v : Owned Wire), j ≠ 1 → exProject.wires[j]? = some v →
      touches v (some 10) = false ∧ touches v (some 20) = false := by
  intro j v hj e
  match j with
  | 0 =>
    have : v = exWireDangling := by simpa [exProject] using e.symm
    subst this; decide
  | 1 => exact absurd rfl hj
  | 2 =>
    have : v = exWireFree := by simpa [exProject] using e.symm
    subst this; decide
  | (k + 3) => simp [exProject] at e

/-- C1 at `exProject`: the wire at position 1 joins ports 10 and 20. -/
theorem C1_connected_ports_of_wire_witness :
    FindConnectedPort exProject (some 10) = some 20 ∧
      FindConnectedPort exProject (some 20) = some 10 :=
  C1_connected_ports_of_wire exProject 1 exWireAB (some 10) (some 20) rfl rfl rfl
    exProject_others

/-- C2: for every port `tx`, `FindConnectedPort(tx)` equals the result of locating the
wire with `GetWireConnectedToPort(tx)` and inspecting its opposite end: none when no wire
is returned; for `(w, i)` the port at end `1 - i` of `w` when that end is connected, and
none when that end is a free point. -/
theorem C2_find_connected_port_refines (this : Project) (tx : PortPtr) :
    FindConnectedPort this tx = FindConnectedPort_spec this tx := by
  unfold FindConnectedPort FindConnectedPort_spec GetWireConnectedToPort
  exact find_loop_eq_spec tx this.wires

/-- C3: `GetWireConnectedToPort(p)` returns the first match of a linear scan.  It returns
the null pair exactly when no wire has an end connected to `p`.  Otherwise, for the
earliest position `i` whose wire `w` has an end connected to `p`, it returns `w` with the
lowest end index of `w` connected to `p`; wires at later positions may reference `p` too. -/
theorem C3_get_wire_first_match (this : Project) (port : PortPtr) :
    (GetWireConnectedToPort this port = (none, 0) ↔
        ∀ w ∈ this.wires, touches w port = false) ∧
    (∀ (i : Nat) (w : Owned Wire), this.wires[i]? = some w → touches w port = true →
        (∀ (j : Nat) (v : Owned Wire), j < i → this.wires[j]? = some v → touches v port = false) →
        GetWireConnectedToPort this port = (w.get, lowestEnd w port) ∧
        lowestEnd w port < 2 ∧
        connectedTo (w.obj.GetPoints (lowestEnd w port)) port = true ∧
        ∀ k, k < lowestEnd w port → connectedTo (w.obj.GetPoints k) port = false) := by
  refine ⟨wire_loop_none_iff port this.wires, ?_⟩
  intro i w hw ht hbefore
  obtain ⟨hsplit, _, _⟩ := split_at this.wires i w hw
  have hpre : ∀ v ∈ this.wires.take i, touches v port = false := by
    intro v hv
    obtain ⟨j, hj, e⟩ := mem_take_index this.wires i v hv
    exact hbefore j v hj e
  refine ⟨?_, ?_, ?_, ?_⟩
  · unfold GetWireConnectedToPort
    rw [hsplit, wire_loop_skip port _ _ hpre]
    exact wire_loop_hit port w _ ht
  · unfold lowestEnd; split <;> decide
  · simp only [touches, Bool.or_eq_true, Wire.GetP0, Wire.GetP1] at ht
    by_cases h0 : connectedTo w.obj.p0 port = true
    · simp [lowestEnd, Wire.GetPoints, Wire.GetP0, h0]
    · have h1 : connectedTo w.obj.p1 port = true := by tauto
      simp [lowestEnd, Wire.GetPoints, Wire.GetP0, h0, h1]
  · intro k hk
    by_cases h0 : connectedTo w.obj.p0 port = true
    · simp [lowestEnd, Wire.GetP0, h0] at hk
    · simp only [lowestEnd, Wire.GetP0, h0] at hk
      have hk0 : k = 0 := by simpa using hk
      subst hk0
      simpa [Wire.GetPoints] using h0

/-- C3 at a collection in which two wires reference port 30: the earlier one is returned,
with its lowest matching end. -/
theorem C3_get_wire_first_match_witness :
    GetWireConnectedToPort ⟨[], [exWireFree, exWireDangling, ⟨4, ⟨.loose 0 0, .connected (some 30)⟩⟩]⟩
        (some 30) = (exWireDangling.get, 0) := by
  have h := (C3_get_wire_first_match
    ⟨[], [exWireFree, exWireDangling, ⟨4, ⟨.loose 0 0, .connected (some 30)⟩⟩]⟩ (some 30)).2
    1 exWireDangling rfl (by decide) (by
      intro j v hj e
      have hj0 : j = 0 := by omega
      subst hj0
      have : v = exWireFree := by simpa using e.symm
      subst this; decide)
  exact h.1

theorem remove_wire_calls_index (ndebug : Bool)
    (removeAt : Project → Nat → Except Abort (Ptr Wire × Project)) (this : Project)
    (i : Nat) (w : Owned Wire) (hi : this.wires[i]? = some w)
    (hu : UniquelyOwned this.wires) :
    remove_wire ndebug removeAt this w.get = removeAt this i := by
  simp [remove_wire, indexLoop_member this.wires i w hi hu]

theorem remove_wire_member (ndebug : Bool) (this : Project) (i : Nat) (w : Owned Wire)
    (hi : this.wires[i]? = some w) (hu : UniquelyOwned this.wires) :
    remove_wire ndebug remove_wire_at this w.get =
      .ok (some w, { this with wires := this.wires.eraseIdx i }) := by
  simp [remove_wire, indexLoop_member this.wires i w hi hu, remove_wire_at, hi]

theorem erased_facts {α : Type} (v : List (Owned α)) (i : Nat) (w : Owned α)
    (hi : v[i]? = some w) (hu : UniquelyOwned v) :
    ¬ IsMember w.get (v.eraseIdx i) ∧
    (∀ x ∈ v, x ≠ w → x ∈ v.eraseIdx i) ∧
    (v.eraseIdx i).Sublist v ∧
    (v.eraseIdx i).length + 1 = v.length := by
  obtain ⟨hsplit, herase, _⟩ := split_at v i w hi
  have hothers := addr_not_mem_others v i w hi hu
  refine ⟨?_, ?_, List.eraseIdx_sublist v i, ?_⟩
  · rintro ⟨x, hx, hp⟩
    rw [herase] at hx
    rw [hothers x hx] at hp
    exact Bool.false_ne_true hp
  · intro x hx hne
    rw [herase]
    rw [hsplit] at hx
    rcases List.mem_append.mp hx with h | h
    · exact List.mem_append_left _ h
    · rcases List.mem_cons.mp h with h | h
      · exact absurd h hne
      · exact List.mem_append_right _ h
  · have hlt : i < v.length := (List.getElem?_eq_some.mp hi).1
    rw [List.length_eraseIdx]
    simp [hlt]; omega

/-- C4: for a wire `w` at position `i` of the container whose ends are connected to the
ports `P1` and `P2`, no wire at another position referencing `P1` or `P2`, and the wires
uniquely owned: before the removal the two ports see each other; `remove_wire(w)` returns,
and afterwards `FindConnectedPort(P1)` and `FindConnectedPort(P2)` both return none. -/
theorem C4_remove_wire_disconnects (ndebug : Bool) (this : Project) (i : Nat)
    (w : Owned Wire) (P1 P2 : PortPtr) (hw : this.wires[i]? = some w)
    (h0 : w.obj.GetP0 = .connected P1) (h1 : w.obj.GetP1 = .connected P2)
    (hother : ∀ (j : Nat) (v : Owned Wire), j ≠ i → this.wires[j]? = some v →
      touches v P1 = false ∧ touches v P2 = false)
    (hu : UniquelyOwned this.wires) :
    (FindConnectedPort this P1 = P2 ∧ FindConnectedPort this P2 = P1) ∧
    ∃ after, remove_wire ndebug remove_wire_at this w.get = .ok (some w, after) ∧
      FindConnectedPort after P1 = nullPort ∧ FindConnectedPort after P2 = nullPort := by
  have hA := fun (j : Nat) (v : Owned Wire) hj e => (hother j v hj e).1
  have hB := fun (j : Nat) (v : Owned Wire) hj e => (hother j v hj e).2
  refine ⟨⟨(find_at_index this i w P1 P2 P1 hw h0 h1 hA).1 rfl,
    (find_at_index this i w P1 P2 P2 hw h0 h1 hB).2 rfl⟩,
    { this with wires := this.wires.eraseIdx i }, remove_wire_member ndebug this i w hw hu, ?_, ?_⟩
  · unfold FindConnectedPort
    simp only
    rw [(split_at this.wires i w hw).2.1]
    exact find_loop_none P1 _ (others_of_index this i P1 hA)
  · unfold FindConnectedPort
    simp only
    rw [(split_at this.wires i w hw).2.1]
    exact find_loop_none P2 _ (others_of_index this i P2 hB)

/-- C4 at `exProject`: removing the wire between ports 10 and 20 leaves both without a
connected port. -/
theorem C4_remove_wire_disconnects_witness :
    (FindConnectedPort exProject (some 10) = some 20 ∧
      FindConnectedPort exProject (some 20) = some 10) ∧
    ∃ after, remove_wire false remove_wire_at exProject exWireAB.get = .ok (some exWireAB, after) ∧
      FindConnectedPort after (some 10) = nullPort ∧
      FindConnectedPort after (some 20) = nullPort :=
  C4_remove_wire_disconnects false exProject 1 exWireAB (some 10) (some 20) rfl rfl rfl
    exProject_others (by decide)

/-- C5: for a wire `w` at position `i` of the uniquely owned wire collection,
`remove_wire(w)` finds `w` by address at position `i` and returns what the index overload
returns at `i`; with index removal that is ownership of exactly that wire: afterwards `w` is not a member, every other
wire is still a member, the order of the remaining wires and the bridges are unchanged. -/
theorem C5_remove_wire_returns_owned (ndebug : Bool) (this : Project) (i : Nat)
    (w : Owned Wire) (hw : this.wires[i]? = some w) (hu : UniquelyOwned this.wires) :
    indexLoop w.get this.wires 0 = some i ∧
    (∀ removeAt : Project → Nat → Except Abort (Ptr Wire × Project),
      remove_wire ndebug removeAt this w.get = removeAt this i) ∧
    ∃ after, remove_wire ndebug remove_wire_at this w.get = .ok (some w, after) ∧
      after.wires = this.wires.eraseIdx i ∧ after.bridges = this.bridges ∧
      ¬ IsMember w.get after.wires ∧
      (∀ v ∈ this.wires, v ≠ w → v ∈ after.wires) ∧
      after.wires.Sublist this.wires ∧
      after.wires.length + 1 = this.wires.length :=
  ⟨indexLoop_member this.wires i w hw hu,
   fun removeAt => remove_wire_calls_index ndebug removeAt this i w hw hu,
   { this with wires := this.wires.eraseIdx i }, remove_wire_member ndebug this i w hw hu,
   rfl, rfl, erased_facts this.wires i w hw hu⟩

/-- C5 at `exProject`: removing `exWireAB` returns it and leaves the other two wires. -/
theorem C5_remove_wire_returns_owned_witness :
    indexLoop exWireAB.get exProject.wires 0 = some 1 ∧
    (∀ removeAt : Project → Nat → Except Abort (Ptr Wire × Project),
      remove_wire false removeAt exProject exWireAB.get = removeAt exProject 1) ∧
    ∃ after, remove_wire false remove_wire_at exProject exWireAB.get = .ok (some exWireAB, after) ∧
      after.wires = exProject.wires.eraseIdx 1 ∧ after.bridges = exProject.bridges ∧
      ¬ IsMember exWireAB.get after.wires ∧
      (∀ v ∈ exProject.wires, v ≠ exWireAB → v ∈ after.wires) ∧
      after.wires.Sublist exProject.wires ∧
      after.wires.length + 1 = exProject.wires.length :=
  C5_remove_wire_returns_owned false exProject 1 exWireAB rfl (by decide)

/-! ### Removing a bridge whose ports are wired -/

theorem indexLoop_some {α : Type} (p : Ptr α) (v : List (Owned α)) (k j : Nat)
    (h : indexLoop p v k = some j) :
    ∃ i x, j = k + i ∧ v[i]? = some x ∧ ptrEq x.get p = true := by
  induction v generalizing k with
  | nil => simp [indexLoop] at h
  | cons y rest ih =>
    by_cases hy : ptrEq y.get p = true
    · simp only [indexLoop, hy, if_true, Option.some.injEq] at h
      exact ⟨0, y, by omega, by simp, hy⟩
    · simp only [indexLoop, hy, Bool.false_eq_true, if_false] at h
      obtain ⟨i, x, hj, hx, hp⟩ := ih (k + 1) h
      exact ⟨i + 1, x, by omega, by simpa using hx, hp⟩

theorem indexLoop_none_of_not_member {α : Type} (p : Ptr α) (v : List (Owned α))
    (h : ¬ IsMember p v) : indexLoop p v 0 = none := by
  rw [indexLoop_none_iff]
  intro x hx
  cases hp : ptrEq x.get p
  · rfl
  · exact absurd ⟨x, hx, hp⟩ h

theorem indexLoop_found_of_member {α : Type} (p : Ptr α) (v : List (Owned α))
    (h : IsMember p v) :
    ∃ i x, indexLoop p v 0 = some i ∧ v[i]? = some x ∧ ptrEq x.get p = true := by
  cases hl : indexLoop p v 0 with
  | none =>
    obtain ⟨x, hx, hp⟩ := h
    rw [(indexLoop_none_iff p v 0).mp hl x hx] at hp
    exact absurd hp Bool.false_ne_true
  | some j =>
    obtain ⟨i, x, hj, hx, hp⟩ := indexLoop_some p v 0 j hl
    have hji : j = i := by omega
    subst hji
    exact ⟨j, x, rfl, hx, hp⟩

theorem remove_wire_cases (ndebug : Bool)
    (removeAt : Project → Nat → Except Abort (Ptr Wire × Project))
    (this : Project) (w : Ptr Wire) :
    (¬ IsMember w this.wires →
      remove_wire ndebug removeAt this w =
        if ndebug then .ok (none, this) else .error Abort.assertFailed) ∧
    (IsMember w this.wires →
      ∃ i x, this.wires[i]? = some x ∧ ptrEq x.get w = true ∧
        remove_wire ndebug removeAt this w = removeAt this i) := by
  constructor
  · intro h
    simp [remove_wire, indexLoop_none_of_not_member w this.wires h, assertFalseReturnNull]
  · intro h
    obtain ⟨i, x, hl, hx, hp⟩ := indexLoop_found_of_member w this.wires h
    exact ⟨i, x, hx, hp, by simp [remove_wire, hl]⟩

theorem remove_bridge_cases (ndebug : Bool)
    (removeAt : Project → Nat → Except Abort (Ptr Bridge × Project))
    (this : Project) (b : Ptr Bridge) :
    (¬ IsMember b this.bridges →
      remove_bridge ndebug removeAt this b =
        if ndebug then .ok (none, this) else .error Abort.assertFailed) ∧
    (IsMember b this.bridges →
      ∃ i x, this.bridges[i]? = some x ∧ ptrEq x.get b = true ∧
        remove_bridge ndebug removeAt this b = removeAt this i) := by
  constructor
  · intro h
    simp [remove_bridge, indexLoop_none_of_not_member b this.bridges h, assertFalseReturnNull]
  · intro h
    obtain ⟨i, x, hl, hx, hp⟩ := indexLoop_found_of_member b this.bridges h
    exact ⟨i, x, hx, hp, by simp [remove_bridge, hl]⟩

/-- The outcome of a removal, by membership, when the index overload returns at every
position of the collection and assertions are compiled in. -/
theorem fails_iff_not_member {α : Type} (v : List (Owned α)) (p : Ptr α) (this : Project)
    (removeAt : Project → Nat → Except Abort (Ptr α × Project))
    (result : Except Abort (Ptr α × Project))
    (hnon : ¬ IsMember p v → result = .error Abort.assertFailed)
    (hmem : IsMember p v → ∃ i x, v[i]? = some x ∧ ptrEq x.get p = true ∧
      result = removeAt this i)
    (hret : ∀ i, i < v.length → ∃ r, removeAt this i = .ok r) :
    (result = .error Abort.assertFailed ↔ ¬ IsMember p v) ∧
    ((∃ r, result = .ok r) ↔ IsMember p v) := by
  by_cases h : IsMember p v
  · obtain ⟨i, x, hx, _, hres⟩ := hmem h
    have hi : i < v.length := (List.getElem?_eq_some.mp hx).1
    obtain ⟨r, hr⟩ := hret i hi
    rw [hres, hr]
    simp [h]
  · rw [hnon h]
    simp [h]

/-- C7 as stated fails when `NDEBUG` is defined: the wire `exStrayWire` is not a member of
`exProject`, and `remove_wire` returns normally, with a null pointer and the container as
it was, instead of failing. -/
theorem C7_ndebug_non_member_returns_counterexample :
    (¬ IsMember exStrayWire.get exProject.wires) ∧
    remove_wire true exNoRemoval exProject exStrayWire.get = .ok (none, exProject) ∧
    remove_wire true exNoRemoval exProject exStrayWire.get ≠ .error Abort.assertFailed ∧
    (¬ IsMember exStrayBridge.get exProject.bridges) ∧
    remove_bridge true exNoRemoval exProject exStrayBridge.get = .ok (none, exProject) := by
  have e : remove_wire true exNoRemoval exProject exStrayWire.get = .ok (none, exProject) :=
    rfl
  refine ⟨by decide, e, ?_, by decide, rfl⟩
  rw [e]
  exact fun h => Except.noConfusion h

/-- C7 amended.  For an entity that is not a member, `remove_wire` and `remove_bridge`
end in an assertion failure when assertions are compiled in, and return a null pointer
with the container unchanged when `NDEBUG` is defined.  For a member they never reach
their own assertion, in either build: they return what the index overload returns at a
position holding the entity.  So with assertions compiled in and index overloads that
return, they fail if and only if the entity is not a member. -/
theorem C7_remove_outcome_by_membership (ndebug : Bool)
    (removeW : Project → Nat → Except Abort (Ptr Wire × Project))
    (removeB : Project → Nat → Except Abort (Ptr Bridge × Project))
    (this : Project) (w : Ptr Wire) (b : Ptr Bridge) :
    ((¬ IsMember w this.wires →
        remove_wire ndebug removeW this w =
          if ndebug then .ok (none, this) else .error Abort.assertFailed) ∧
      (IsMember w this.wires →
        ∃ i x, this.wires[i]? = some x ∧ ptrEq x.get w = true ∧
          remove_wire ndebug removeW this w = removeW this i)) ∧
    ((¬ IsMember b this.bridges →
        remove_bridge ndebug removeB this b =
          if ndebug then .ok (none, this) else .error Abort.assertFailed) ∧
      (IsMember b this.bridges →
        ∃ i x, this.bridges[i]? = some x ∧ ptrEq x.get b = true ∧
          remove_bridge ndebug removeB this b = removeB this i)) ∧
    ((∀ i, i < this.wires.length → ∃ r, removeW this i = .ok r) →
      (remove_wire false removeW this w = .error Abort.assertFailed ↔
          ¬ IsMember w this.wires) ∧
      ((∃ r, remove_wire false removeW this w = .ok r) ↔ IsMember w this.wires)) ∧
    ((∀ i, i < this.bridges.length → ∃ r, removeB this i = .ok r) →
      (remove_bridge false removeB this b = .error Abort.assertFailed ↔
          ¬ IsMember b this.bridges) ∧
      ((∃ r, remove_bridge false removeB this b = .ok r) ↔ IsMember b this.bridges)) := by
  refine ⟨remove_wire_cases ndebug removeW this w, remove_bridge_cases ndebug removeB this b,
    ?_, ?_⟩
  · intro hret
    have hc := remove_wire_cases false removeW this w
    exact fails_iff_not_member this.wires w this removeW _
      (fun h => by simpa using hc.1 h) hc.2 hret
  · intro hret
    have hc := remove_bridge_cases false removeB this b
    exact fails_iff_not_member this.bridges b this removeB _
      (fun h => by simpa using hc.1 h) hc.2 hret

/-- C7 amended at `exProject`: with assertions compiled in and an index overload that
returns, removing the wire `exStrayWire`, which is not a member, fails, and removing the
member `exWireAB` returns. -/
theorem C7_remove_outcome_by_membership_witness :
    remove_wire false exNoRemoval exProject exStrayWire.get = .error Abort.assertFailed ∧
    ∃ r, remove_wire false exNoRemoval exProject exWireAB.get = .ok r :=
  ⟨((C7_remove_outcome_by_membership false exNoRemoval exNoRemoval exProject
      exStrayWire.get exStrayBridge.get).2.2.1 (fun _ _ => ⟨_, rfl⟩)).1.mpr (by decide),
   ((C7_remove_outcome_by_membership false exNoRemoval exNoRemoval exProject
      exWireAB.get exStrayBridge.get).2.2.1 (fun _ _ => ⟨_, rfl⟩)).2.mpr (by decide)⟩

/-- C8 as stated fails at `exProject`: port 30 is attached to a wire whose opposite end is
a free point, port 40 is attached to no wire, and `FindConnectedPort` returns the same
value for both. -/
theorem C8_dangling_vs_no_wire_counterexample :
    GetWireConnectedToPort exProject (some 30) = (exWireDangling.get, 0) ∧
    holds_ConnectedWireEnd (exWireDangling.obj.GetPoints 1) = false ∧
    GetWireConnectedToPort exProject (some 40) = (none, 0) ∧
    ¬ (FindConnectedPort exProject (some 30) ≠ FindConnectedPort exProject (some 40)) := by
  decide

/-- C8 amended: for a port `p1` whose first attached wire has a free point at the opposite
end, and a port `p2` attached to no wire, `FindConnectedPort` returns the null port for
both; the two cases differ only in `GetWireConnectedToPort`, which returns the wire for
`p1` and the null pair for `p2`. -/
theorem C8_dangling_and_no_wire_both_null (this : Project) (i : Nat) (w : Owned Wire)
    (p1 p2 : PortPtr) (hw : this.wires[i]? = some w) (ht : touches w p1 = true)
    (hfirst : ∀ (j : Nat) (v : Owned Wire), j < i → this.wires[j]? = some v →
      touches v p1 = false)
    (hloose : holds_ConnectedWireEnd (w.obj.GetPoints (1 - lowestEnd w p1)) = false)
    (hp2 : ∀ v ∈ this.wires, touches v p2 = false) :
    FindConnectedPort this p1 = nullPort ∧ FindConnectedPort this p2 = nullPort ∧
    GetWireConnectedToPort this p1 = (w.get, lowestEnd w p1) ∧
    GetWireConnectedToPort this p2 = (none, 0) ∧
    GetWireConnectedToPort this p1 ≠ GetWireConnectedToPort this p2 := by
  obtain ⟨hsplit, _, _⟩ := split_at this.wires i w hw
  have hpre : ∀ v ∈ this.wires.take i, touches v p1 = false := by
    intro v hv
    obtain ⟨j, hj, e⟩ := mem_take_index this.wires i v hv
    exact hfirst j v hj e
  have hg1 : GetWireConnectedToPort this p1 = (w.get, lowestEnd w p1) := by
    unfold GetWireConnectedToPort
    rw [hsplit, wire_loop_skip p1 _ _ hpre]
    exact wire_loop_hit p1 w _ ht
  have hg2 : GetWireConnectedToPort this p2 = (none, 0) :=
    (wire_loop_none_iff p2 this.wires).mpr hp2
  refine ⟨?_, find_loop_none p2 this.wires hp2, hg1, hg2, ?_⟩
  · unfold FindConnectedPort
    rw [hsplit, find_loop_skip p1 _ _ hpre, find_loop_hit p1 w _ ht]
    cases he : w.obj.GetPoints (1 - lowestEnd w p1) with
    | loose x y => rfl
    | connected q => simp [he, holds_ConnectedWireEnd] at hloose
  · rw [hg1, hg2]
    simp [Owned.get]

/-- C8 amended at `exProject`, ports 30 and 40. -/
theorem C8_dangling_and_no_wire_both_null_witness :
    FindConnectedPort exProject (some 30) = nullPort ∧
    FindConnectedPort exProject (some 40) = nullPort ∧
    GetWireConnectedToPort exProject (some 30) = (exWireDangling.get, lowestEnd exWireDangling (some 30)) ∧
    GetWireConnectedToPort exProject (some 40) = (none, 0) ∧
    GetWireConnectedToPort exProject (some 30) ≠ GetWireConnectedToPort exProject (some 40) :=
  C8_dangling_and_no_wire_both_null exProject 0 exWireDangling (some 30) (some 40) rfl
    (by decide) (fun j _ hj _ => absurd hj (Nat.not_lt_zero j)) (by decide) (by decide)

/-- C9: for every bridge state `IsStpEnabled()` is true exactly when the handle
`_stpBridge` is non-null, and a bridge as its default member initialisers leave it has a
null handle, so STP is disabled. -/
theorem C9_stp_enabled_iff_handle :
    (∀ b : Bridge, b.IsStpEnabled = true ↔ b._stpBridge ≠ none) ∧
    (∀ (ports : List (Owned Port)) (mac : List Nat) (log : List BridgeLogLine)
        (cur : BridgeLogLine),
      ({ _ports := ports, _macAddress := mac, _logLines := log,
         _currentLogLine := cur } : Bridge)._stpBridge = none ∧
      ({ _ports := ports, _macAddress := mac, _logLines := log,
         _currentLogLine := cur } : Bridge).IsStpEnabled = false) := by
  constructor
  · intro b
    simp [Bridge.IsStpEnabled]
  · intro ports mac log cur
    exact ⟨rfl, rfl⟩

theorem find_loop_append_skip (tx : PortPtr) (ws : List (Owned Wire)) (u : Owned Wire)
    (h : touches u tx = false) :
    FindConnectedPort.loop tx (ws ++ [u]) = FindConnectedPort.loop tx ws := by
  induction ws with
  | nil => simp [FindConnectedPort.loop, ends_of_not_touches u tx h]
  | cons v vs ih =>
    simp only [List.cons_append, FindConnectedPort.loop]
    rw [show vs.append [u] = vs ++ [u] from rfl, ih]

theorem find_loop_remove (tx : PortPtr) (pre post : List (Owned Wire)) (w : Owned Wire)
    (h : touches w tx = false) :
    FindConnectedPort.loop tx (pre ++ post) = FindConnectedPort.loop tx (pre ++ w :: post) := by
  induction pre with
  | nil =>
    have e := find_loop_skip tx [w] post (by simpa using h)
    simpa using e.symm
  | cons v vs ih =>
    simp only [List.cons_append, FindConnectedPort.loop]
    rw [show vs.append post = vs ++ post from rfl, ih]
    rfl

theorem wire_loop_remove (port : PortPtr) (pre post : List (Owned Wire)) (w : Owned Wire)
    (h : touches w port = false) :
    GetWireConnectedToPort.loop port (pre ++ post) =
      GetWireConnectedToPort.loop port (pre ++ w :: post) := by
  induction pre with
  | nil =>
    have e := wire_loop_skip port [w] post (by simpa using h)
    simpa using e.symm
  | cons v vs ih =>
    simp only [List.cons_append, GetWireConnectedToPort.loop]
    rw [show vs.append post = vs ++ post from rfl, ih]
    rfl

theorem wire_loop_append_skip (port : PortPtr) (ws : List (Owned Wire)) (u : Owned Wire)
    (h : touches u port = false) :
    GetWireConnectedToPort.loop port (ws ++ [u]) = GetWireConnectedToPort.loop port ws := by
  induction ws with
  | nil =>
    have := wire_loop_skip port [u] [] (by simpa using h)
    simpa using this
  | cons v vs ih =>
    simp only [List.cons_append, GetWireConnectedToPort.loop]
    rw [show vs.append [u] = vs ++ [u] from rfl, ih]

/-- C10: the connectivity queries are local.  For every wire collection and port `p`,
removing the wire at a position `k`, or appending a wire, when that wire has no end
connected to `p`, leaves `FindConnectedPort(p)` and the wire and end index returned by
`GetWireConnectedToPort(p)` unchanged; nothing is assumed about the other wires. -/
theorem C10_queries_are_local (this : Project) (p : PortPtr) :
    (∀ (k : Nat) (w : Owned Wire), this.wires[k]? = some w → touches w p = false →
      FindConnectedPort { this with wires := this.wires.eraseIdx k } p =
        FindConnectedPort this p ∧
      GetWireConnectedToPort { this with wires := this.wires.eraseIdx k } p =
        GetWireConnectedToPort this p) ∧
    (∀ u : Owned Wire, touches u p = false →
      FindConnectedPort { this with wires := this.wires ++ [u] } p =
        FindConnectedPort this p ∧
      GetWireConnectedToPort { this with wires := this.wires ++ [u] } p =
        GetWireConnectedToPort this p) := by
  constructor
  · intro k w hk hw
    obtain ⟨hsplit, herase, _⟩ := split_at this.wires k w hk
    have e1 := find_loop_remove p (this.wires.take k) (this.wires.drop (k + 1)) w hw
    have e2 := wire_loop_remove p (this.wires.take k) (this.wires.drop (k + 1)) w hw
    rw [← hsplit, ← herase] at e1 e2
    exact ⟨e1, e2⟩
  · intro u hu
    exact ⟨find_loop_append_skip p this.wires u hu, wire_loop_append_skip p this.wires u hu⟩

/-- C10 at `exProject`, port 20: removing the wire between two free points (position 2)
leaves both queries as they were. -/
theorem C10_queries_are_local_witness :
    FindConnectedPort { exProject with wires := exProject.wires.eraseIdx 2 } (some 20) =
        FindConnectedPort exProject (some 20) ∧
    GetWireConnectedToPort { exProject with wires := exProject.wires.eraseIdx 2 } (some 20) =
        GetWireConnectedToPort exProject (some 20) :=
  (C10_queries_are_local exProject (some 20)).1 2 exWireFree rfl (by decide)

end MstpSim
